import Mathlib

/-!
Verification of the `ytd` terminal downloader (src/main.rs) against its
natural-language specification.  The Rust program is shallowly embedded:
the shared progress channel becomes an explicit record, the download
worker thread becomes a trace of channel operations (with the two
stream-drain threads contributing an arbitrary interleaving of their
per-stream order), and the render/input loop becomes a step function on
the application record driven by keyboard/tick inputs.
-/

namespace Ytd

/-! ## Shared Progress Channel (main.rs lines 36-39)

`download_output : Arc<Mutex<String>>`, `download_done : Arc<AtomicBool>`,
`download_success : Arc<AtomicBool>`. -/

structure ProgressChannel where
  output : String
  done : Bool
  success : Bool
deriving DecidableEq

def ProgressChannel.init : ProgressChannel := ⟨"", false, false⟩

/-- One operation the worker thread (or one of its drain threads) performs on
the shared channel.  An `append` is atomic: the Rust drain threads hold the
mutex guard across `push_str(&l); push('\n')` (main.rs lines 102-104), so the
line and its newline are published together.  `waitChild` marks the call to
`c.wait()` (it does not touch the channel). -/
inductive WorkerOp where
  | append (text : String)
  | waitChild (result : Option Nat)
  | storeSuccess (b : Bool)
  | storeDone
deriving DecidableEq

def applyOp (ch : ProgressChannel) : WorkerOp → ProgressChannel
  | .append s => { ch with output := ch.output ++ s }
  | .waitChild _ => ch
  | .storeSuccess b => { ch with success := b }
  | .storeDone => { ch with done := true }

/-- The channel state after a sequence of worker operations. -/
def runOps (ch : ProgressChannel) (ops : List WorkerOp) : ProgressChannel :=
  ops.foldl applyOp ch

/-! ## Download Worker (main.rs lines 73-142)

The worker's interaction with the outside world: either the spawn failed
with some error message, or it produced a child whose two captured streams
yield a sequence of line-read results (`Except.error` models an `Err` from
`BufRead::lines`, which the drain loop skips) and whose `wait()` call
either reports an exit code or fails.  `stdout`/`stderr` are `Option`s
because the Rust code takes them with `Option::take` and only spawns a
drain thread when the stream is present. -/

structure ChildStreams where
  stdout : Option (List (Except String String))
  stderr : Option (List (Except String String))
  waitResult : Option Nat

inductive SpawnResult where
  | ok (streams : ChildStreams)
  | err (msg : String)

/-- `ExitStatus::success()` for an observed exit code. -/
def exitSuccess (code : Nat) : Bool := code == 0

/-- `c.wait().unwrap_or_default().success()` (main.rs line 131): a failed
`wait()` call is replaced by `ExitStatus::default()`, which represents
successful termination. -/
def statusSuccess (waitResult : Option Nat) : Bool :=
  match waitResult with
  | some code => exitSuccess code
  | none => true

/-- The text a drain thread appends for each successfully read line
(main.rs lines 100-105): the line followed by a newline, skipping `Err`
read results. -/
def drainLines (stream : List (Except String String)) : List String :=
  stream.filterMap fun r =>
    match r with
    | .ok l => some (l ++ "\n")
    | .error _ => none

def streamLines (stream : Option (List (Except String String))) : List String :=
  match stream with
  | some s => drainLines s
  | none => []

/-- The channel operations of one drain thread, in per-stream order. -/
def streamOps (stream : Option (List (Except String String))) : List WorkerOp :=
  (streamLines stream).map WorkerOp.append

/-- `Interleaving xs ys zs`: `zs` is a merge of `xs` and `ys` preserving the
relative order inside each of the two. -/
inductive Interleaving : List α → List α → List α → Prop where
  | nil : Interleaving [] [] []
  | left : ∀ (x : α) (xs ys zs : List α),
      Interleaving xs ys zs → Interleaving (x :: xs) ys (x :: zs)
  | right : ∀ (y : α) (xs ys zs : List α),
      Interleaving xs ys zs → Interleaving xs (y :: ys) (y :: zs)

/-- The possible operation sequences of one worker-thread execution
(main.rs lines 73-142).  On a successful spawn the two drain threads run
concurrently (any interleaving of the two per-stream sequences), the worker
joins both, waits for the child, stores the success flag and finally the
done flag.  On a spawn failure it appends the diagnostic text, stores
`success = false` and then the done flag; `wait` is never called. -/
inductive WorkerTrace : SpawnResult → List WorkerOp → Prop where
  | ok : ∀ (st : ChildStreams) (body : List WorkerOp),
      Interleaving (streamOps st.stdout) (streamOps st.stderr) body →
      WorkerTrace (SpawnResult.ok st)
        (body ++ [WorkerOp.waitChild st.waitResult,
                  WorkerOp.storeSuccess (statusSuccess st.waitResult),
                  WorkerOp.storeDone])
  | err : ∀ (msg : String),
      WorkerTrace (SpawnResult.err msg)
        [WorkerOp.append ("Failed to spawn: " ++ msg),
         WorkerOp.storeSuccess false,
         WorkerOp.storeDone]

/-! ## Helper notions used by the theorems -/

/-- `isPre p l`: `p` is a prefix of `l` (a momentary observation of a
growing list). -/
def isPre (p l : List α) : Prop := ∃ q, p ++ q = l

/-- The text payload of an `append` operation. -/
def appendText : WorkerOp → Option String
  | .append s => some s
  | _ => none

/-- Concatenation of a list of strings. -/
def joinAll (l : List String) : String := l.foldr (fun a b => a ++ b) ""

/-! ## Application state (main.rs lines 21-55) -/

inductive AppState where
  | inputPlaylistName
  | inputUrl
  | downloading
  | done
  | error
deriving DecidableEq

/-- The fields of `struct App` owned exclusively by the render/input loop;
the shared `download_output`/`download_done`/`download_success` handles are
modelled separately as the `ProgressChannel` snapshot a tick observes. -/
structure App where
  state : AppState
  playlist_name : String
  url : String
  error_message : String
  files_downloaded : List String
  download_output_final : String
deriving DecidableEq

/-- `App::new()` (main.rs lines 43-55). -/
def App.new : App :=
  { state := AppState.inputPlaylistName
    playlist_name := ""
    url := ""
    error_message := ""
    files_downloaded := []
    download_output_final := "" }

/-! ## Filesystem and path model (main.rs lines 58-63 and 152-166) -/

/-- One `read_dir` entry as the code observes it: `e.path().extension()`
(converted to a string when present) and `e.file_name().into_string().ok()`
(`none` when the name is not valid Unicode). -/
structure DirEntry where
  extension : Option String
  fileName : Option String
deriving DecidableEq

/-- The external world of the render loop: `dirs::home_dir()` and
`std::fs::read_dir` (outer `none` = the listing itself failed; inner `none`
entries = per-entry errors skipped by `filter_map(|e| e.ok())`). -/
structure Env where
  home : Option String
  readDir : String → Option (List (Option DirEntry))

/-- Unix `Path::is_absolute`: the path starts with the separator. -/
def pathIsAbsolute (p : String) : Bool :=
  match p.data with
  | [] => false
  | c :: _ => c == '/'

def endsWithSep (p : String) : Bool :=
  match p.data.getLast? with
  | some c => c == '/'
  | none => false

/-- `PathBuf::join` (then rendered with `display()`): an absolute argument
replaces the path; otherwise a separator is inserted unless the base is
empty or already ends with one. -/
def pathJoin (a b : String) : String :=
  if pathIsAbsolute b then b
  else if a = "" then b
  else if endsWithSep a then a ++ b
  else a ++ "/" ++ b

/-- `dirs::home_dir().unwrap_or_default().join("Music").join(&self.playlist_name)`
as computed by `start_download` (main.rs lines 58-61). -/
def start_download_music_dir (home : Option String) (playlist_name : String) : String :=
  pathJoin (pathJoin (home.getD "") "Music") playlist_name

/-- The same expression as computed independently by `check_download`
(main.rs lines 153-156). -/
def check_download_music_dir (home : Option String) (playlist_name : String) : String :=
  pathJoin (pathJoin (home.getD "") "Music") playlist_name

/-- The collection pipeline of main.rs lines 158-166: keep `Ok` entries,
keep those whose path extension is `m4a`, and keep the Unicode-valid file
names, preserving enumeration order. -/
def m4aNames (entries : List (Option DirEntry)) : List String :=
  (((entries.filterMap id).filter fun e => e.extension == some "m4a").filterMap
    DirEntry.fileName)

/-- `App::check_download` (main.rs lines 145-176), acting on the snapshot
`ch` of the shared channel this tick observes.  Returns the updated app and
the boolean result.  A failed `read_dir` yields `unwrap_or_default()`, an
empty file list. -/
def check_download (env : Env) (ch : ProgressChannel) (a : App) : App × Bool :=
  if ch.done then
    let a1 : App := { a with download_output_final := ch.output }
    if ch.success then
      let music_dir := check_download_music_dir env.home a.playlist_name
      let files : List String :=
        match env.readDir music_dir with
        | some entries => m4aNames entries
        | none => []
      ({ a1 with files_downloaded := files, state := AppState.done }, true)
    else
      ({ a1 with error_message := "Download failed. Check your connection and URL.",
                 state := AppState.error }, true)
  else (a, false)

/-! ## Render/input loop (main.rs lines 189-255) -/

inductive KeyCode where
  | enter
  | backspace
  | esc
  | char (c : Char)
  | other
deriving DecidableEq

/-- The externally visible side effect of handling one key press. -/
inductive Effect where
  | none
  | spawnDownload
  | exitLoop
deriving DecidableEq

/-- Rust `String::pop`: drop the last character (no-op on the empty
string). -/
def stringPop (s : String) : String := String.mk s.data.dropLast

/-- The `match app.state` key-press handler of the main loop
(main.rs lines 211-252).  `Effect.exitLoop` models `break`,
`Effect.spawnDownload` models the `app.start_download()` call. -/
def handleKeyPress (env : Env) (ch : ProgressChannel) (a : App) (k : KeyCode) :
    App × Effect :=
  match a.state with
  | AppState.inputPlaylistName =>
    if k = KeyCode.enter then
      if a.playlist_name ≠ "" then ({ a with state := AppState.inputUrl }, Effect.none)
      else (a, Effect.none)
    else
      match k with
      | KeyCode.char c =>
        ({ a with playlist_name := a.playlist_name.push c }, Effect.none)
      | KeyCode.backspace =>
        ({ a with playlist_name := stringPop a.playlist_name }, Effect.none)
      | KeyCode.esc => (a, Effect.exitLoop)
      | _ => (a, Effect.none)
  | AppState.inputUrl =>
    if k = KeyCode.enter then
      if a.url ≠ "" then ({ a with state := AppState.downloading }, Effect.spawnDownload)
      else (a, Effect.none)
    else
      match k with
      | KeyCode.char c => ({ a with url := a.url.push c }, Effect.none)
      | KeyCode.backspace => ({ a with url := stringPop a.url }, Effect.none)
      | KeyCode.esc => (a, Effect.exitLoop)
      | _ => (a, Effect.none)
  | AppState.downloading =>
    ((check_download env ch a).1,
      if k = KeyCode.esc then Effect.exitLoop else Effect.none)
  | AppState.done => (a, if k = KeyCode.enter then Effect.exitLoop else Effect.none)
  | AppState.error => (a, if k = KeyCode.enter then Effect.exitLoop else Effect.none)

/-- What one loop iteration observes: the key event, if any (`true` =
`KeyEventKind::Press`), and the current shared-channel contents. -/
structure TickInput where
  key : Option (Bool × KeyCode)
  ch : ProgressChannel

/-- One iteration of the main loop (main.rs lines 189-255): while
downloading, poll for a key (Esc breaks, kind unchecked) and then run
`check_download`; otherwise block for an event and dispatch press events to
the key handler.  The boolean is `true` when the loop `break`s. -/
def loopStep (env : Env) (a : App) (t : TickInput) : App × Bool :=
  if a.state = AppState.downloading then
    match t.key with
    | some (_, KeyCode.esc) => (a, true)
    | _ => ((check_download env t.ch a).1, false)
  else
    match t.key with
    | some (true, k) =>
      let r := handleKeyPress env t.ch a k
      (r.1, decide (r.2 = Effect.exitLoop))
    | _ => (a, false)

/-- Run the loop over a list of tick inputs, stopping at a `break`. -/
def runLoop (env : Env) : App → List TickInput → App
  | a, [] => a
  | a, t :: ts =>
    if (loopStep env a t).2 then (loopStep env a t).1
    else runLoop env (loopStep env a t).1 ts

/-- Fold a sequence of key presses through the key handler (text-entry
states block on keys, so this is exactly the loop's behaviour there). -/
def runPressKeys (env : Env) (ch : ProgressChannel) (a : App) (ks : List KeyCode) : App :=
  ks.foldl (fun a k => (handleKeyPress env ch a k).1) a

/-- The editing effect of one key on an accumulated text, as the spec
describes it: printable characters append, delete removes the last
character. -/
def applyEdit (s : String) : KeyCode → String
  | KeyCode.char c => s.push c
  | KeyCode.backspace => stringPop s
  | _ => s

/-- The keys allowed during text accumulation: printable characters and
the delete key. -/
def editKeys (ks : List KeyCode) : Prop :=
  ∀ k ∈ ks, (∃ c, k = KeyCode.char c) ∨ k = KeyCode.backspace

/-- Position of a state along the path `EnteringName → EnteringURL →
Downloading → (Done | Failed)`. -/
def stateRank : AppState → Nat
  | AppState.inputPlaylistName => 0
  | AppState.inputUrl => 1
  | AppState.downloading => 2
  | AppState.done => 3
  | AppState.error => 3

/-- The forward transitions of the state machine. -/
def forwardEdge (s t : AppState) : Prop :=
  (s = AppState.inputPlaylistName ∧ t = AppState.inputUrl) ∨
  (s = AppState.inputUrl ∧ t = AppState.downloading) ∨
  (s = AppState.downloading ∧ (t = AppState.done ∨ t = AppState.error))

/-! ## Helper lemmas -/

theorem string_eq_of_data {a b : String} (h : a.data = b.data) : a = b := by
  cases a with
  | mk d₁ =>
    cases b with
    | mk d₂ => exact congrArg String.mk h

theorem string_append_empty (s : String) : s ++ "" = s :=
  string_eq_of_data (List.append_nil s.data)

theorem string_empty_append (s : String) : "" ++ s = s := rfl

theorem string_append_assoc (a b c : String) : (a ++ b) ++ c = a ++ (b ++ c) :=
  string_eq_of_data (List.append_assoc a.data b.data c.data)

theorem joinAll_nil : joinAll [] = "" := rfl

theorem joinAll_cons (s : String) (l : List String) :
    joinAll (s :: l) = s ++ joinAll l := rfl

theorem isPre_nil (l : List α) : isPre [] l := ⟨l, rfl⟩

theorem isPre_refl (l : List α) : isPre l l := ⟨[], List.append_nil l⟩

theorem isPre_cons {a : α} {p l : List α} (h : isPre p l) : isPre (a :: p) (a :: l) := by
  obtain ⟨q, rfl⟩ := h
  exact ⟨q, rfl⟩

theorem isPre_mem {p l : List α} (h : isPre p l) {x : α} (hx : x ∈ p) : x ∈ l := by
  obtain ⟨q, rfl⟩ := h
  exact List.mem_append_left q hx

theorem isPre_cons_cases {x : α} {p zs : List α} (h : isPre p (x :: zs)) :
    p = [] ∨ ∃ p', p = x :: p' ∧ isPre p' zs := by
  obtain ⟨q, hq⟩ := h
  cases p with
  | nil => exact Or.inl rfl
  | cons a p' =>
    rw [List.cons_append] at hq
    injection hq with h1 h2
    subst h1
    exact Or.inr ⟨p', rfl, ⟨q, h2⟩⟩

theorem isPre_append_cases {p xs ys : List α} (h : isPre p (xs ++ ys)) :
    isPre p xs ∨ ∃ q, p = xs ++ q ∧ isPre q ys := by
  induction xs generalizing p with
  | nil => exact Or.inr ⟨p, rfl, h⟩
  | cons x xs' ih =>
    rcases isPre_cons_cases h with rfl | ⟨p', rfl, hp'⟩
    · exact Or.inl (isPre_nil _)
    · rcases ih hp' with h1 | ⟨q, rfl, hq⟩
      · exact Or.inl (isPre_cons h1)
      · exact Or.inr ⟨q, rfl, hq⟩

theorem isPre_map {f : α → β} {p : List β} {l : List α} (h : isPre p (l.map f)) :
    ∃ l₁, isPre l₁ l ∧ p = l₁.map f := by
  induction l generalizing p with
  | nil =>
    obtain ⟨q, hq⟩ := h
    rcases List.append_eq_nil.mp hq with ⟨rfl, -⟩
    exact ⟨[], isPre_nil _, rfl⟩
  | cons a l' ih =>
    rcases isPre_cons_cases h with rfl | ⟨p', rfl, hp'⟩
    · exact ⟨[], isPre_nil _, rfl⟩
    · obtain ⟨l₁, h1, rfl⟩ := ih hp'
      exact ⟨a :: l₁, isPre_cons h1, rfl⟩

/-- A prefix of `l ++ [a]` that contains `a` (with `a` not in `l`) must be
the whole list. -/
theorem pre_snoc_eq {l p : List α} {a : α} (ha : a ∉ l) (hp : isPre p (l ++ [a]))
    (hm : a ∈ p) : p = l ++ [a] := by
  induction l generalizing p with
  | nil =>
    obtain ⟨q, hq⟩ := hp
    cases p with
    | nil => cases hm
    | cons x p' =>
      rw [List.cons_append] at hq
      injection hq with h1 h2
      rcases List.append_eq_nil.mp h2 with ⟨rfl, rfl⟩
      subst h1
      rfl
  | cons x l' ih =>
    obtain ⟨q, hq⟩ := hp
    cases p with
    | nil => cases hm
    | cons y p' =>
      rw [List.cons_append, List.cons_append] at hq
      injection hq with h1 h2
      subst h1
      have hal' : a ∉ l' := fun h => ha (List.mem_cons_of_mem _ h)
      have hm' : a ∈ p' := by
        rcases List.mem_cons.mp hm with rfl | h
        · exact absurd (List.mem_cons_self _ _) ha
        · exact h
      rw [List.cons_append, ih hal' ⟨q, h2⟩ hm']

theorem Interleaving.mem_or {xs ys zs : List α} (h : Interleaving xs ys zs)
    {z : α} (hz : z ∈ zs) : z ∈ xs ∨ z ∈ ys := by
  induction h with
  | nil => cases hz
  | left x xs ys zs h ih =>
    rcases List.mem_cons.mp hz with rfl | hz'
    · exact Or.inl (List.mem_cons_self _ _)
    · rcases ih hz' with h1 | h1
      · exact Or.inl (List.mem_cons_of_mem _ h1)
      · exact Or.inr h1
  | right y xs ys zs h ih =>
    rcases List.mem_cons.mp hz with rfl | hz'
    · exact Or.inr (List.mem_cons_self _ _)
    · rcases ih hz' with h1 | h1
      · exact Or.inl h1
      · exact Or.inr (List.mem_cons_of_mem _ h1)

/-- A prefix of an interleaving is an interleaving of prefixes. -/
theorem Interleaving.pre_decomp {xs ys zs : List α} (h : Interleaving xs ys zs) :
    ∀ p, isPre p zs → ∃ px py, isPre px xs ∧ isPre py ys ∧ Interleaving px py p := by
  induction h with
  | nil =>
    intro p hp
    obtain ⟨q, hq⟩ := hp
    rcases List.append_eq_nil.mp hq with ⟨rfl, -⟩
    exact ⟨[], [], isPre_nil _, isPre_nil _, Interleaving.nil⟩
  | left x xs ys zs h ih =>
    intro p hp
    rcases isPre_cons_cases hp with rfl | ⟨p', rfl, hp'⟩
    · exact ⟨[], [], isPre_nil _, isPre_nil _, Interleaving.nil⟩
    · obtain ⟨px, py, h1, h2, h3⟩ := ih p' hp'
      exact ⟨x :: px, py, isPre_cons h1, h2, Interleaving.left x px py p' h3⟩
  | right y xs ys zs h ih =>
    intro p hp
    rcases isPre_cons_cases hp with rfl | ⟨p', rfl, hp'⟩
    · exact ⟨[], [], isPre_nil _, isPre_nil _, Interleaving.nil⟩
    · obtain ⟨px, py, h1, h2, h3⟩ := ih p' hp'
      exact ⟨px, y :: py, h1, isPre_cons h2, Interleaving.right y px py p' h3⟩

/-- Interleavings are preserved by `filterMap`. -/
theorem Interleaving.filterMapped (f : α → Option β) {xs ys zs : List α}
    (h : Interleaving xs ys zs) :
    Interleaving (xs.filterMap f) (ys.filterMap f) (zs.filterMap f) := by
  induction h with
  | nil => exact Interleaving.nil
  | left x xs ys zs h ih =>
    cases hfx : f x with
    | none => simp only [List.filterMap_cons, hfx]; exact ih
    | some b =>
      simp only [List.filterMap_cons, hfx]
      exact Interleaving.left b _ _ _ ih
  | right y xs ys zs h ih =>
    cases hfy : f y with
    | none => simp only [List.filterMap_cons, hfy]; exact ih
    | some b =>
      simp only [List.filterMap_cons, hfy]
      exact Interleaving.right b _ _ _ ih

theorem runOps_append (ch : ProgressChannel) (l₁ l₂ : List WorkerOp) :
    runOps ch (l₁ ++ l₂) = runOps (runOps ch l₁) l₂ :=
  List.foldl_append _ _ _ _

theorem runOps_output (ops : List WorkerOp) :
    ∀ ch : ProgressChannel,
      (runOps ch ops).output = ch.output ++ joinAll (ops.filterMap appendText) := by
  induction ops with
  | nil => intro ch; exact (string_append_empty ch.output).symm
  | cons op ops ih =>
    intro ch
    cases op with
    | append s =>
      rw [show runOps ch (WorkerOp.append s :: ops) = runOps (applyOp ch (.append s)) ops
        from rfl, ih]
      simp only [List.filterMap_cons, appendText, joinAll_cons, applyOp]
      exact string_append_assoc ch.output s (joinAll (ops.filterMap appendText))
    | waitChild w =>
      rw [show runOps ch (WorkerOp.waitChild w :: ops) = runOps (applyOp ch (.waitChild w)) ops
        from rfl, ih]
      simp only [List.filterMap_cons, appendText, applyOp]
    | storeSuccess b =>
      rw [show runOps ch (WorkerOp.storeSuccess b :: ops) = runOps (applyOp ch (.storeSuccess b)) ops
        from rfl, ih]
      simp only [List.filterMap_cons, appendText, applyOp]
    | storeDone =>
      rw [show runOps ch (WorkerOp.storeDone :: ops) = runOps (applyOp ch .storeDone) ops
        from rfl, ih]
      simp only [List.filterMap_cons, appendText, applyOp]

theorem runOps_done (ops : List WorkerOp) :
    ∀ ch : ProgressChannel,
      ((runOps ch ops).done = true ↔ ch.done = true ∨ WorkerOp.storeDone ∈ ops) := by
  induction ops with
  | nil => intro ch; simp [runOps]
  | cons op ops ih =>
    intro ch
    rw [show runOps ch (op :: ops) = runOps (applyOp ch op) ops from rfl, ih]
    cases op <;> simp [applyOp, List.mem_cons]

theorem not_storeDone_mem_streamOps (s : Option (List (Except String String))) :
    WorkerOp.storeDone ∉ streamOps s := by
  intro h
  rcases List.mem_map.mp h with ⟨a, -, ha⟩
  simp at ha

theorem filterMap_appendText_map (l : List String) :
    (l.map WorkerOp.append).filterMap appendText = l := by
  induction l with
  | nil => rfl
  | cons s l ih => simp only [List.map_cons, List.filterMap_cons, appendText, ih]

/-! ## Claims about the Download Worker -/

/-- C1: in every worker trace the done flag is stored exactly once, as the
final action, strictly after the success flag is recorded and after every
output line has been appended; consequently any channel prefix in which
`done` is observed `true` is the complete trace, so its snapshot already
holds the final output. -/
theorem c1_done_published_last (res : SpawnResult) (tr : List WorkerOp)
    (h : WorkerTrace res tr) :
    (∃ pre s, tr = pre ++ [WorkerOp.storeSuccess s, WorkerOp.storeDone] ∧
      WorkerOp.storeDone ∉ pre) ∧
    tr.getLast? = some WorkerOp.storeDone ∧
    ∀ p, isPre p tr → (runOps ProgressChannel.init p).done = true → p = tr := by
  cases h with
  | ok st body hI =>
    have hnb : WorkerOp.storeDone ∉ body := by
      intro hmem
      rcases hI.mem_or hmem with h1 | h1
      · exact not_storeDone_mem_streamOps _ h1
      · exact not_storeDone_mem_streamOps _ h1
    have hnL : WorkerOp.storeDone ∉
        body ++ [WorkerOp.waitChild st.waitResult,
                 WorkerOp.storeSuccess (statusSuccess st.waitResult)] := by
      simp [List.mem_append, hnb]
    have hrw : body ++ [WorkerOp.waitChild st.waitResult,
        WorkerOp.storeSuccess (statusSuccess st.waitResult), WorkerOp.storeDone] =
        (body ++ [WorkerOp.waitChild st.waitResult,
          WorkerOp.storeSuccess (statusSuccess st.waitResult)]) ++ [WorkerOp.storeDone] := by
      simp
    rw [hrw]
    refine ⟨⟨body ++ [WorkerOp.waitChild st.waitResult], statusSuccess st.waitResult,
      by simp, by simp [hnb]⟩, List.getLast?_concat _, ?_⟩
    intro p hp hd
    have hmem : WorkerOp.storeDone ∈ p := by
      rcases (runOps_done p ProgressChannel.init).mp hd with h1 | h1
      · simp [ProgressChannel.init] at h1
      · exact h1
    exact pre_snoc_eq hnL hp hmem
  | err msg =>
    have hrw : [WorkerOp.append ("Failed to spawn: " ++ msg), WorkerOp.storeSuccess false,
        WorkerOp.storeDone] =
        [WorkerOp.append ("Failed to spawn: " ++ msg), WorkerOp.storeSuccess false] ++
          [WorkerOp.storeDone] := rfl
    rw [hrw]
    refine ⟨⟨[WorkerOp.append ("Failed to spawn: " ++ msg)], false, rfl, by simp⟩,
      List.getLast?_concat _, ?_⟩
    intro p hp hd
    have hmem : WorkerOp.storeDone ∈ p := by
      rcases (runOps_done p ProgressChannel.init).mp hd with h1 | h1
      · simp [ProgressChannel.init] at h1
      · exact h1
    exact pre_snoc_eq (by simp) hp hmem

/-- Witness for C1: the spawn-failure trace with message "x". -/
theorem c1_witness :
    (∃ pre s, ([WorkerOp.append ("Failed to spawn: " ++ "x"), WorkerOp.storeSuccess false,
        WorkerOp.storeDone]) = pre ++ [WorkerOp.storeSuccess s, WorkerOp.storeDone] ∧
      WorkerOp.storeDone ∉ pre) ∧
    ([WorkerOp.append ("Failed to spawn: " ++ "x"), WorkerOp.storeSuccess false,
      WorkerOp.storeDone].getLast? = some WorkerOp.storeDone) ∧
    ∀ p, isPre p [WorkerOp.append ("Failed to spawn: " ++ "x"), WorkerOp.storeSuccess false,
        WorkerOp.storeDone] →
      (runOps ProgressChannel.init p).done = true →
      p = [WorkerOp.append ("Failed to spawn: " ++ "x"), WorkerOp.storeSuccess false,
        WorkerOp.storeDone] :=
  c1_done_published_last (SpawnResult.err "x") _ (WorkerTrace.err "x")

/-- C3 counterexample: when the spawn succeeds but the `wait()` call itself
fails, `unwrap_or_default()` substitutes the default `ExitStatus`, which
reports success, so `succeeded = true` is recorded although no exit status
0 was observed. -/
theorem c3_counterexample :
    WorkerTrace (SpawnResult.ok ⟨none, none, none⟩)
      [WorkerOp.waitChild none, WorkerOp.storeSuccess true, WorkerOp.storeDone] ∧
    (runOps ProgressChannel.init
      [WorkerOp.waitChild none, WorkerOp.storeSuccess true, WorkerOp.storeDone]).success
      = true ∧
    (ChildStreams.mk none none none).waitResult ≠ some 0 :=
  ⟨WorkerTrace.ok ⟨none, none, none⟩ [] Interleaving.nil, rfl, by decide⟩

/-- C3 (amended): the succeeded flag is recorded as true iff the spawn
succeeded and the observed wait status counts as success, where a failed
`wait()` call is replaced by the default status, which is success; in
particular every observed nonzero exit code and every spawn failure record
false. -/
theorem c3_success_recorded (res : SpawnResult) (tr : List WorkerOp)
    (h : WorkerTrace res tr) :
    ((runOps ProgressChannel.init tr).success = true ↔
      ∃ st, res = SpawnResult.ok st ∧ statusSuccess st.waitResult = true) := by
  cases h with
  | ok st body hI =>
    have hs : (runOps ProgressChannel.init
        (body ++ [WorkerOp.waitChild st.waitResult,
          WorkerOp.storeSuccess (statusSuccess st.waitResult), WorkerOp.storeDone])).success
        = statusSuccess st.waitResult := by
      rw [runOps_append]
      rfl
    rw [hs]
    constructor
    · intro h1
      exact ⟨st, rfl, h1⟩
    · rintro ⟨st', heq, h1⟩
      injection heq with h2
      rw [h2]
      exact h1
  | err msg =>
    have hs : (runOps ProgressChannel.init
        [WorkerOp.append ("Failed to spawn: " ++ msg), WorkerOp.storeSuccess false,
         WorkerOp.storeDone]).success = false := rfl
    rw [hs]
    constructor
    · intro h1
      exact Bool.noConfusion h1
    · rintro ⟨st', heq, -⟩
      exact SpawnResult.noConfusion heq

/-- Witness for the amended C3: exit code 0 records success. -/
theorem c3_witness :
    ((runOps ProgressChannel.init
      [WorkerOp.waitChild (some 0), WorkerOp.storeSuccess true,
       WorkerOp.storeDone]).success = true ↔
      ∃ st, SpawnResult.ok ⟨none, none, some 0⟩ = SpawnResult.ok st ∧
        statusSuccess st.waitResult = true) :=
  c3_success_recorded (SpawnResult.ok ⟨none, none, some 0⟩) _
    (WorkerTrace.ok ⟨none, none, some 0⟩ [] Interleaving.nil)

/-- C6: on a spawn failure the worker appends the descriptive diagnostic
line, records `succeeded = false`, never performs a `wait` operation, still
sets `done = true`, and the render loop's `check_download` on the resulting
channel reaches the Failed (`error`) state. -/
theorem c6_spawn_failure (msg : String) (tr : List WorkerOp)
    (h : WorkerTrace (SpawnResult.err msg) tr) :
    tr = [WorkerOp.append ("Failed to spawn: " ++ msg), WorkerOp.storeSuccess false,
      WorkerOp.storeDone] ∧
    (∀ w, WorkerOp.waitChild w ∉ tr) ∧
    (runOps ProgressChannel.init tr).success = false ∧
    (runOps ProgressChannel.init tr).done = true ∧
    (runOps ProgressChannel.init tr).output = "Failed to spawn: " ++ msg ∧
    (∀ env a, ((check_download env (runOps ProgressChannel.init tr) a).1).state
      = AppState.error) := by
  cases h with
  | err msg =>
    refine ⟨rfl, ?_, rfl, rfl, rfl, ?_⟩
    · intro w hw
      simp [List.mem_cons] at hw
    · intro env a
      simp [check_download, runOps, applyOp, ProgressChannel.init]

/-- Witness for C6 at a concrete OS error message. -/
theorem c6_witness :
    ([WorkerOp.append ("Failed to spawn: " ++ "No such file"), WorkerOp.storeSuccess false,
        WorkerOp.storeDone] =
      [WorkerOp.append ("Failed to spawn: " ++ "No such file"), WorkerOp.storeSuccess false,
        WorkerOp.storeDone]) ∧
    (∀ w, WorkerOp.waitChild w ∉
      [WorkerOp.append ("Failed to spawn: " ++ "No such file"), WorkerOp.storeSuccess false,
        WorkerOp.storeDone]) ∧
    (runOps ProgressChannel.init
      [WorkerOp.append ("Failed to spawn: " ++ "No such file"), WorkerOp.storeSuccess false,
        WorkerOp.storeDone]).success = false ∧
    (runOps ProgressChannel.init
      [WorkerOp.append ("Failed to spawn: " ++ "No such file"), WorkerOp.storeSuccess false,
        WorkerOp.storeDone]).done = true ∧
    (runOps ProgressChannel.init
      [WorkerOp.append ("Failed to spawn: " ++ "No such file"), WorkerOp.storeSuccess false,
        WorkerOp.storeDone]).output = "Failed to spawn: " ++ "No such file" ∧
    (∀ env a, ((check_download env (runOps ProgressChannel.init
        [WorkerOp.append ("Failed to spawn: " ++ "No such file"), WorkerOp.storeSuccess false,
          WorkerOp.storeDone]) a).1).state = AppState.error) :=
  c6_spawn_failure "No such file" _ (WorkerTrace.err "No such file")

/-- C9: every snapshot taken at any prefix of a successful-spawn worker
trace is the concatenation of an interleaving of a prefix of the stdout
lines and a prefix of the stderr lines — whole appended lines only, with
each stream's order preserved. -/
theorem c9_snapshot_whole_lines (st : ChildStreams) (tr p : List WorkerOp)
    (h : WorkerTrace (SpawnResult.ok st) tr) (hp : isPre p tr) :
    ∃ xs ys zs, isPre xs (streamLines st.stdout) ∧ isPre ys (streamLines st.stderr) ∧
      Interleaving xs ys zs ∧
      (runOps ProgressChannel.init p).output = joinAll zs := by
  have houtp : (runOps ProgressChannel.init p).output
      = joinAll (p.filterMap appendText) := by
    rw [runOps_output]
    exact string_empty_append _
  cases h with
  | ok st' body hI =>
    rcases isPre_append_cases hp with hpb | ⟨q, rfl, hq⟩
    · obtain ⟨px, py, hx, hy, hI'⟩ := hI.pre_decomp p hpb
      obtain ⟨ls₁, hls₁, hpx⟩ := @isPre_map _ _ WorkerOp.append px (streamLines st.stdout) hx
      obtain ⟨ls₂, hls₂, hpy⟩ := @isPre_map _ _ WorkerOp.append py (streamLines st.stderr) hy
      subst hpx
      subst hpy
      refine ⟨ls₁, ls₂, p.filterMap appendText, hls₁, hls₂, ?_, houtp⟩
      have hfm := hI'.filterMapped appendText
      rwa [filterMap_appendText_map, filterMap_appendText_map] at hfm
    · have hq0 : q.filterMap appendText = [] := by
        apply List.filterMap_eq_nil_iff.mpr
        intro x hx
        have hx' := isPre_mem hq hx
        rcases List.mem_cons.mp hx' with rfl | hx'
        · rfl
        rcases List.mem_cons.mp hx' with rfl | hx'
        · rfl
        rcases List.mem_cons.mp hx' with rfl | hx'
        · rfl
        · cases hx'
      refine ⟨streamLines st.stdout, streamLines st.stderr, body.filterMap appendText,
        isPre_refl _, isPre_refl _, ?_, ?_⟩
      · have hfm := hI.filterMapped appendText
        rwa [show streamOps st.stdout = (streamLines st.stdout).map WorkerOp.append from rfl,
          show streamOps st.stderr = (streamLines st.stderr).map WorkerOp.append from rfl,
          filterMap_appendText_map, filterMap_appendText_map] at hfm
      · rw [houtp, List.filterMap_append, hq0, List.append_nil]

/-- Witness for C9: one stdout line, prefix containing exactly that line. -/
theorem c9_witness :
    ∃ xs ys zs, isPre xs (streamLines (some [Except.ok "a"])) ∧
      isPre ys (streamLines none) ∧ Interleaving xs ys zs ∧
      (runOps ProgressChannel.init [WorkerOp.append ("a" ++ "\n")]).output = joinAll zs :=
  c9_snapshot_whole_lines ⟨some [Except.ok "a"], none, some 0⟩ _ _
    (WorkerTrace.ok ⟨some [Except.ok "a"], none, some 0⟩ [WorkerOp.append ("a" ++ "\n")]
      (Interleaving.left _ _ _ _ Interleaving.nil))
    ⟨[WorkerOp.waitChild (some 0), WorkerOp.storeSuccess true, WorkerOp.storeDone], rfl⟩

/-! ## Claims about the state machine and render loop -/

theorem runPressKeys_edit (env : Env) (ch : ProgressChannel) (ks : List KeyCode) :
    ∀ a : App, a.state = AppState.inputPlaylistName → editKeys ks →
      (runPressKeys env ch a ks).state = AppState.inputPlaylistName ∧
      (runPressKeys env ch a ks).playlist_name = ks.foldl applyEdit a.playlist_name := by
  induction ks with
  | nil => intro a ha _; exact ⟨ha, rfl⟩
  | cons k ks ih =>
    intro a ha hk
    obtain ⟨s, n, u, em, fd, dof⟩ := a
    replace ha : s = AppState.inputPlaylistName := ha
    subst ha
    have hk2 : editKeys ks := fun k' h' => hk k' (List.mem_cons_of_mem _ h')
    rcases hk k (List.mem_cons_self _ _) with ⟨c, rfl⟩ | rfl
    · exact ih ⟨AppState.inputPlaylistName, n.push c, u, em, fd, dof⟩ rfl hk2
    · exact ih ⟨AppState.inputPlaylistName, stringPop n, u, em, fd, dof⟩ rfl hk2

theorem handleKeyPress_enter_advances (env : Env) (ch : ProgressChannel) (a : App)
    (ha : a.state = AppState.inputPlaylistName) (hn : a.playlist_name ≠ "") :
    handleKeyPress env ch a KeyCode.enter =
      ({ a with state := AppState.inputUrl }, Effect.none) := by
  obtain ⟨s, n, u, em, fd, dof⟩ := a
  replace ha : s = AppState.inputPlaylistName := ha
  subst ha
  replace hn : n ≠ "" := hn
  simp [handleKeyPress, hn]

/-- C2: any sequence of printable-character and delete keys entered from the
initial state accumulates exactly their concatenation (deletes dropping the
last character) while staying in the name-entry state, and a confirm key on
a non-empty accumulated name moves to URL entry with the name preserved. -/
theorem c2_name_entry (env : Env) (ch : ProgressChannel) (ks : List KeyCode)
    (hk : editKeys ks) (hne : List.foldl applyEdit "" ks ≠ "") :
    (runPressKeys env ch App.new ks).state = AppState.inputPlaylistName ∧
    (runPressKeys env ch App.new ks).playlist_name = List.foldl applyEdit "" ks ∧
    (handleKeyPress env ch (runPressKeys env ch App.new ks) KeyCode.enter).1.state
      = AppState.inputUrl ∧
    (handleKeyPress env ch (runPressKeys env ch App.new ks) KeyCode.enter).1.playlist_name
      = List.foldl applyEdit "" ks := by
  obtain ⟨h1, h2⟩ := runPressKeys_edit env ch ks App.new rfl hk
  have h3 := handleKeyPress_enter_advances env ch (runPressKeys env ch App.new ks) h1
    (by rw [h2]; exact hne)
  refine ⟨h1, h2, ?_, ?_⟩
  · rw [h3]
  · rw [h3]; exact h2

/-- Witness for C2: typing "h", "i", delete leaves "h" and confirm advances. -/
theorem c2_witness :
    (runPressKeys ⟨none, fun _ => none⟩ ProgressChannel.init App.new
        [KeyCode.char 'h', KeyCode.char 'i', KeyCode.backspace]).state
      = AppState.inputPlaylistName ∧
    (runPressKeys ⟨none, fun _ => none⟩ ProgressChannel.init App.new
        [KeyCode.char 'h', KeyCode.char 'i', KeyCode.backspace]).playlist_name
      = List.foldl applyEdit "" [KeyCode.char 'h', KeyCode.char 'i', KeyCode.backspace] ∧
    (handleKeyPress ⟨none, fun _ => none⟩ ProgressChannel.init
        (runPressKeys ⟨none, fun _ => none⟩ ProgressChannel.init App.new
          [KeyCode.char 'h', KeyCode.char 'i', KeyCode.backspace]) KeyCode.enter).1.state
      = AppState.inputUrl ∧
    (handleKeyPress ⟨none, fun _ => none⟩ ProgressChannel.init
        (runPressKeys ⟨none, fun _ => none⟩ ProgressChannel.init App.new
          [KeyCode.char 'h', KeyCode.char 'i', KeyCode.backspace]) KeyCode.enter).1.playlist_name
      = List.foldl applyEdit "" [KeyCode.char 'h', KeyCode.char 'i', KeyCode.backspace] :=
  c2_name_entry ⟨none, fun _ => none⟩ ProgressChannel.init
    [KeyCode.char 'h', KeyCode.char 'i', KeyCode.backspace]
    (by
      intro k hk
      rcases List.mem_cons.mp hk with rfl | hk
      · exact Or.inl ⟨'h', rfl⟩
      rcases List.mem_cons.mp hk with rfl | hk
      · exact Or.inl ⟨'i', rfl⟩
      rcases List.mem_cons.mp hk with rfl | hk
      · exact Or.inr rfl
      · cases hk)
    (by decide)

/-- C4: when the loop observes `done` with `succeeded`, `check_download`
moves to the Done state, copies the final output, and sets `result_files`
to exactly the listed entries whose extension is `m4a`, kept in enumeration
order (a sublist of the full listing, not sorted). -/
theorem c4_success_transition (env : Env) (ch : ProgressChannel) (a : App)
    (entries : List (Option DirEntry))
    (hd : ch.done = true) (hs : ch.success = true)
    (hr : env.readDir (check_download_music_dir env.home a.playlist_name) = some entries) :
    check_download env ch a =
      ({ a with download_output_final := ch.output,
                files_downloaded := m4aNames entries,
                state := AppState.done }, true) ∧
    m4aNames entries =
      (((entries.filterMap id).filter fun e => e.extension == some "m4a").filterMap
        DirEntry.fileName) ∧
    List.Sublist (m4aNames entries) ((entries.filterMap id).filterMap DirEntry.fileName) := by
  refine ⟨?_, rfl, ?_⟩
  · simp [check_download, hd, hs, hr]
  · exact List.Sublist.filterMap _ (List.filter_sublist _)

/-- Witness for C4 (Scenario A): a directory with `track.m4a` and
`notes.txt` yields `result_files = ["track.m4a"]` and the Done state. -/
theorem c4_witness :
    check_download
      ⟨some "/home/u", fun _ => some [some ⟨some "m4a", some "track.m4a"⟩,
        some ⟨some "txt", some "notes.txt"⟩]⟩
      ⟨"[download] ok\n", true, true⟩
      ⟨AppState.downloading, "Chill", "http://example/1", "", [], ""⟩ =
      (⟨AppState.done, "Chill", "http://example/1", "", ["track.m4a"], "[download] ok\n"⟩,
        true) :=
  (c4_success_transition
    ⟨some "/home/u", fun _ => some [some ⟨some "m4a", some "track.m4a"⟩,
      some ⟨some "txt", some "notes.txt"⟩]⟩
    ⟨"[download] ok\n", true, true⟩
    ⟨AppState.downloading, "Chill", "http://example/1", "", [], ""⟩
    [some ⟨some "m4a", some "track.m4a"⟩, some ⟨some "txt", some "notes.txt"⟩]
    rfl rfl rfl).1

/-- C5: when the loop observes `done` without `succeeded`, `check_download`
moves to the Failed (`error`) state with exactly the fixed diagnostic
message, independent of the channel contents (so never the OS error). -/
theorem c5_failure_transition (env : Env) (ch : ProgressChannel) (a : App)
    (hd : ch.done = true) (hs : ch.success = false) :
    check_download env ch a =
      ({ a with download_output_final := ch.output,
                error_message := "Download failed. Check your connection and URL.",
                state := AppState.error }, true) := by
  simp [check_download, hd, hs]

/-- Witness for C5 (Scenario B): worker failed, Failed state with the fixed
message. -/
theorem c5_witness :
    check_download ⟨none, fun _ => none⟩
      ⟨"ERROR: unsupported URL\n", true, false⟩
      ⟨AppState.downloading, "Chill", "bad-url", "", [], ""⟩ =
      (⟨AppState.error, "Chill", "bad-url",
        "Download failed. Check your connection and URL.", [], "ERROR: unsupported URL\n"⟩,
        true) :=
  c5_failure_transition ⟨none, fun _ => none⟩
    ⟨"ERROR: unsupported URL\n", true, false⟩
    ⟨AppState.downloading, "Chill", "bad-url", "", [], ""⟩ rfl rfl

theorem check_download_state (env : Env) (ch : ProgressChannel) (a : App) :
    (check_download env ch a).1.state = a.state ∨
    (check_download env ch a).1.state = AppState.done ∨
    (check_download env ch a).1.state = AppState.error := by
  by_cases h1 : ch.done = true
  · by_cases h2 : ch.success = true
    · refine Or.inr (Or.inl ?_)
      simp [check_download, h1, h2]
    · refine Or.inr (Or.inr ?_)
      simp [check_download, h1, h2]
  · refine Or.inl ?_
    simp [check_download, h1]

theorem handleKeyPress_state (env : Env) (ch : ProgressChannel) (a : App) (k : KeyCode) :
    (handleKeyPress env ch a k).1.state = a.state ∨
    forwardEdge a.state (handleKeyPress env ch a k).1.state := by
  obtain ⟨s, n, u, em, fd, dof⟩ := a
  cases s with
  | inputPlaylistName =>
    cases k with
    | enter =>
      by_cases hn : n ≠ ""
      · refine Or.inr ?_
        have heq : handleKeyPress env ch ⟨AppState.inputPlaylistName, n, u, em, fd, dof⟩
            KeyCode.enter = (⟨AppState.inputUrl, n, u, em, fd, dof⟩, Effect.none) := by
          simp [handleKeyPress, hn]
        rw [heq]
        exact Or.inl ⟨rfl, rfl⟩
      · refine Or.inl ?_
        simp [handleKeyPress, hn]
    | char c => exact Or.inl rfl
    | backspace => exact Or.inl rfl
    | esc => exact Or.inl rfl
    | other => exact Or.inl rfl
  | inputUrl =>
    cases k with
    | enter =>
      by_cases hu : u ≠ ""
      · refine Or.inr ?_
        have heq : handleKeyPress env ch ⟨AppState.inputUrl, n, u, em, fd, dof⟩
            KeyCode.enter = (⟨AppState.downloading, n, u, em, fd, dof⟩, Effect.spawnDownload) := by
          simp [handleKeyPress, hu]
        rw [heq]
        exact Or.inr (Or.inl ⟨rfl, rfl⟩)
      · refine Or.inl ?_
        simp [handleKeyPress, hu]
    | char c => exact Or.inl rfl
    | backspace => exact Or.inl rfl
    | esc => exact Or.inl rfl
    | other => exact Or.inl rfl
  | downloading =>
    rcases check_download_state env ch ⟨AppState.downloading, n, u, em, fd, dof⟩ with h | h | h
    · exact Or.inl h
    · exact Or.inr (Or.inr (Or.inr ⟨rfl, Or.inl h⟩))
    · exact Or.inr (Or.inr (Or.inr ⟨rfl, Or.inr h⟩))
  | done => exact Or.inl rfl
  | error => exact Or.inl rfl

theorem loopStep_state (env : Env) (a : App) (t : TickInput) :
    (loopStep env a t).1.state = a.state ∨
    forwardEdge a.state (loopStep env a t).1.state := by
  by_cases hs : a.state = AppState.downloading
  · rcases ht : t.key with - | ⟨b, k⟩
    · have heq : loopStep env a t = ((check_download env t.ch a).1, false) := by
        simp [loopStep, hs, ht]
      rw [heq]
      rcases check_download_state env t.ch a with h | h | h
      · exact Or.inl h
      · exact Or.inr (Or.inr (Or.inr ⟨hs, Or.inl h⟩))
      · exact Or.inr (Or.inr (Or.inr ⟨hs, Or.inr h⟩))
    · cases k with
      | esc =>
        have heq : loopStep env a t = (a, true) := by
          simp [loopStep, hs, ht]
        rw [heq]
        exact Or.inl rfl
      | enter =>
        have heq : loopStep env a t = ((check_download env t.ch a).1, false) := by
          simp [loopStep, hs, ht]
        rw [heq]
        rcases check_download_state env t.ch a with h | h | h
        · exact Or.inl h
        · exact Or.inr (Or.inr (Or.inr ⟨hs, Or.inl h⟩))
        · exact Or.inr (Or.inr (Or.inr ⟨hs, Or.inr h⟩))
      | backspace =>
        have heq : loopStep env a t = ((check_download env t.ch a).1, false) := by
          simp [loopStep, hs, ht]
        rw [heq]
        rcases check_download_state env t.ch a with h | h | h
        · exact Or.inl h
        · exact Or.inr (Or.inr (Or.inr ⟨hs, Or.inl h⟩))
        · exact Or.inr (Or.inr (Or.inr ⟨hs, Or.inr h⟩))
      | char c =>
        have heq : loopStep env a t = ((check_download env t.ch a).1, false) := by
          simp [loopStep, hs, ht]
        rw [heq]
        rcases check_download_state env t.ch a with h | h | h
        · exact Or.inl h
        · exact Or.inr (Or.inr (Or.inr ⟨hs, Or.inl h⟩))
        · exact Or.inr (Or.inr (Or.inr ⟨hs, Or.inr h⟩))
      | other =>
        have heq : loopStep env a t = ((check_download env t.ch a).1, false) := by
          simp [loopStep, hs, ht]
        rw [heq]
        rcases check_download_state env t.ch a with h | h | h
        · exact Or.inl h
        · exact Or.inr (Or.inr (Or.inr ⟨hs, Or.inl h⟩))
        · exact Or.inr (Or.inr (Or.inr ⟨hs, Or.inr h⟩))
  · rcases ht : t.key with - | ⟨b, k⟩
    · have heq : loopStep env a t = (a, false) := by
        simp [loopStep, hs, ht]
      rw [heq]
      exact Or.inl rfl
    · cases b with
      | true =>
        have heq : loopStep env a t =
            ((handleKeyPress env t.ch a k).1,
              decide ((handleKeyPress env t.ch a k).2 = Effect.exitLoop)) := by
          simp [loopStep, hs, ht]
        rw [heq]
        exact handleKeyPress_state env t.ch a k
      | false =>
        have heq : loopStep env a t = (a, false) := by
          simp [loopStep, hs, ht]
        rw [heq]
        exact Or.inl rfl

theorem forwardEdge_rank (s u : AppState) (h : forwardEdge s u) :
    stateRank s < stateRank u := by
  rcases h with ⟨rfl, rfl⟩ | ⟨rfl, rfl⟩ | ⟨rfl, rfl | rfl⟩ <;> decide

theorem runLoop_rank (env : Env) :
    ∀ (ts : List TickInput) (a : App), stateRank a.state ≤ stateRank (runLoop env a ts).state := by
  intro ts
  induction ts with
  | nil => intro a; exact Nat.le_refl _
  | cons t ts ih =>
    intro a
    have hstep : stateRank a.state ≤ stateRank (loopStep env a t).1.state := by
      rcases loopStep_state env a t with h | h
      · rw [h]
      · exact Nat.le_of_lt (forwardEdge_rank _ _ h)
    by_cases hex : (loopStep env a t).2 = true
    · rw [show runLoop env a (t :: ts) = (loopStep env a t).1 by simp [runLoop, hex]]
      exact hstep
    · rw [show runLoop env a (t :: ts) = runLoop env (loopStep env a t).1 ts by
        simp [runLoop, hex]]
      exact Nat.le_trans hstep (ih _)

/-- C7: each loop step either keeps the state or follows a forward edge of
the path `EnteringName → EnteringURL → Downloading → (Done | Failed)`;
forward edges strictly increase the path rank (so no state is re-entered
once left), and the rank is monotone along any run of the loop. -/
theorem c7_state_monotone (env : Env) :
    (∀ (a : App) (t : TickInput),
      (loopStep env a t).1.state = a.state ∨
      forwardEdge a.state (loopStep env a t).1.state) ∧
    (∀ s u, forwardEdge s u → stateRank s < stateRank u) ∧
    (∀ (a : App) (ts : List TickInput),
      stateRank a.state ≤ stateRank (runLoop env a ts).state) :=
  ⟨loopStep_state env, forwardEdge_rank, fun a ts => runLoop_rank env ts a⟩

/-- Witness for C7 at a concrete tick. -/
theorem c7_witness :
    (loopStep ⟨none, fun _ => none⟩ App.new ⟨none, ProgressChannel.init⟩).1.state
      = App.new.state ∨
    forwardEdge App.new.state
      (loopStep ⟨none, fun _ => none⟩ App.new ⟨none, ProgressChannel.init⟩).1.state :=
  (c7_state_monotone ⟨none, fun _ => none⟩).1 App.new ⟨none, ProgressChannel.init⟩

/-- C8: a confirm key with empty `name` (in name entry) or empty `url` (in
URL entry) is a complete no-op: the handler returns the unchanged record
with no effect (in particular no download spawn), and the loop step neither
changes the app nor exits. -/
theorem c8_empty_confirm_noop (env : Env) (ch : ProgressChannel) (a : App) :
    (a.state = AppState.inputPlaylistName → a.playlist_name = "" →
      handleKeyPress env ch a KeyCode.enter = (a, Effect.none) ∧
      loopStep env a ⟨some (true, KeyCode.enter), ch⟩ = (a, false)) ∧
    (a.state = AppState.inputUrl → a.url = "" →
      handleKeyPress env ch a KeyCode.enter = (a, Effect.none) ∧
      loopStep env a ⟨some (true, KeyCode.enter), ch⟩ = (a, false)) := by
  obtain ⟨s, n, u, em, fd, dof⟩ := a
  constructor
  · intro ha hn
    replace ha : s = AppState.inputPlaylistName := ha
    subst ha
    replace hn : n = "" := hn
    subst hn
    refine ⟨rfl, ?_⟩
    simp [loopStep, handleKeyPress]
  · intro ha hu
    replace ha : s = AppState.inputUrl := ha
    subst ha
    replace hu : u = "" := hu
    subst hu
    refine ⟨rfl, ?_⟩
    simp [loopStep, handleKeyPress]

/-- Witness for C8: empty confirm in both entry states of the fresh app. -/
theorem c8_witness :
    (handleKeyPress ⟨none, fun _ => none⟩ ProgressChannel.init App.new KeyCode.enter
        = (App.new, Effect.none) ∧
      loopStep ⟨none, fun _ => none⟩ App.new ⟨some (true, KeyCode.enter), ProgressChannel.init⟩
        = (App.new, false)) ∧
    (handleKeyPress ⟨none, fun _ => none⟩ ProgressChannel.init
        { App.new with state := AppState.inputUrl } KeyCode.enter
        = ({ App.new with state := AppState.inputUrl }, Effect.none) ∧
      loopStep ⟨none, fun _ => none⟩ { App.new with state := AppState.inputUrl }
        ⟨some (true, KeyCode.enter), ProgressChannel.init⟩
        = ({ App.new with state := AppState.inputUrl }, false)) :=
  ⟨(c8_empty_confirm_noop ⟨none, fun _ => none⟩ ProgressChannel.init App.new).1 rfl rfl,
   (c8_empty_confirm_noop ⟨none, fun _ => none⟩ ProgressChannel.init
     { App.new with state := AppState.inputUrl }).2 rfl rfl⟩

theorem pathJoin_music (name : String) (h : pathIsAbsolute name = false) :
    pathJoin "Music" name = "Music" ++ "/" ++ name := by
  unfold pathJoin
  rw [h]
  rfl

theorem pathJoin_abs (a name : String) (h : pathIsAbsolute name = true) :
    pathJoin a name = name := by
  unfold pathJoin
  rw [h]
  rfl

/-- C10 counterexample: with no home directory and the typable name "/x",
`PathBuf::join` sees an absolute component and replaces the accumulated
path, so the destination is "/x", not "Music//x". -/
theorem c10_counterexample :
    start_download_music_dir none "/x" = "/x" ∧
    check_download_music_dir none "/x" = "/x" ∧
    start_download_music_dir none "/x" ≠ "Music" ++ "/" ++ "/x" := by
  refine ⟨rfl, rfl, ?_⟩
  decide

/-- C10 (amended): both the pre-download directory creation and the
post-success scan compute the identical path for every home/name; with no
home directory the path falls back to `Music/<name>` whenever the name is
not an absolute path, and a name that is itself absolute replaces the path
entirely. -/
theorem c10_music_dir (home : Option String) (name : String) :
    start_download_music_dir home name = check_download_music_dir home name ∧
    (pathIsAbsolute name = false →
      start_download_music_dir none name = "Music" ++ "/" ++ name) ∧
    (pathIsAbsolute name = true → start_download_music_dir none name = name) := by
  refine ⟨rfl, ?_, ?_⟩
  · intro h
    show pathJoin (pathJoin "" "Music") name = "Music" ++ "/" ++ name
    rw [show pathJoin "" "Music" = "Music" from rfl]
    exact pathJoin_music name h
  · intro h
    show pathJoin (pathJoin "" "Music") name = name
    rw [show pathJoin "" "Music" = "Music" from rfl]
    exact pathJoin_abs "Music" name h

/-- Witness for the amended C10 at the relative name "Chill". -/
theorem c10_witness :
    (start_download_music_dir none "Chill" = check_download_music_dir none "Chill") ∧
    pathIsAbsolute "Chill" = false ∧
    start_download_music_dir none "Chill" = "Music" ++ "/" ++ "Chill" :=
  ⟨(c10_music_dir none "Chill").1, by decide,
    (c10_music_dir none "Chill").2.1 (by decide)⟩

end Ytd

